import Mathlib

/-!
Verification of the domain-hunter pipeline: a shallow embedding of
`src/keywords.py` and `src/main.py` (Python) into Lean, together with
theorems settling the specification claims about it.

Strings are modelled as `List Char`.  Network effects are modelled by
explicit outcome parameters: an RDAP HTTP call is a value of `HttpOutcome`
and a DNS NS lookup is a value of `DnsOutcome`, so the per-domain checker
becomes a pure function of the domain and the two outcomes.
-/

/-- The three status constants of `main.py` (`STATUS_AVAILABLE`,
`STATUS_REGISTERED`, `STATUS_POSSIBLE_AVAILABLE`). -/
inductive Status where
  | AVAILABLE
  | REGISTERED
  | POSSIBLE_AVAILABLE
deriving DecidableEq, Repr

/-- `listStartsWith needle hay` is true when `needle` is an initial
segment of `hay` (helper for Python's substring test `a in b`). -/
def listStartsWith : List Char → List Char → Bool
  | [], _ => true
  | _ :: _, [] => false
  | a :: as, b :: bs => a = b && listStartsWith as bs

/-- `hasSubstring needle hay` models Python's `needle in hay` on strings:
`needle` occurs contiguously somewhere in `hay`. -/
def hasSubstring (needle : List Char) : List Char → Bool
  | [] => listStartsWith needle []
  | b :: bs => listStartsWith needle (b :: bs) || hasSubstring needle bs

/-- Model of Python's per-character `str.lower` for the ASCII range. -/
def pyLower (s : List Char) : List Char := s.map Char.toLower

/-- Characters kept by `normalize_name`'s regex `[^a-z0-9]` deletion. -/
def isLowerAlnum (c : Char) : Bool :=
  ('a' ≤ c && c ≤ 'z') || ('0' ≤ c && c ≤ '9')

/-- `keywords.normalize_name`: lowercase, strip everything outside
`[a-z0-9]`, truncate to 25 characters
(`re.sub(r'[^a-z0-9]', '', name.lower())[:25]`). -/
def normalize_name (name : List Char) : List Char :=
  ((pyLower name).filter isLowerAlnum).take 25

/-- `keywords.is_valid_name`: `3 <= len(name) <= 25`. -/
def is_valid_name (name : List Char) : Bool :=
  3 ≤ name.length && name.length ≤ 25

/-- `keywords.AFFIXES = ['ai', 'labs', 'cloud', 'tech']`. -/
def AFFIXES : List (List Char) :=
  [['a', 'i'], ['l', 'a', 'b', 's'], ['c', 'l', 'o', 'u', 'd'], ['t', 'e', 'c', 'h']]

/-- `keywords.generate_variations`: normalize the base, drop it when
invalid, otherwise collect the base plus each length-bounded suffixed and
prefixed form.  The Python function materialises the `set` as a `list`
whose order is unspecified, so the embedding returns the set itself. -/
def generate_variations (base_name : List Char) : Finset (List Char) :=
  let clean_name := normalize_name base_name
  if is_valid_name clean_name then
    let withBase : Finset (List Char) := {clean_name}
    let withSuffixes := AFFIXES.foldl
      (fun acc affix =>
        if (clean_name ++ affix).length ≤ 25 then insert (clean_name ++ affix) acc else acc)
      withBase
    AFFIXES.foldl
      (fun acc affix =>
        if (affix ++ clean_name).length ≤ 25 then insert (affix ++ clean_name) acc else acc)
      withSuffixes
  else ∅

/-- `keywords.get_todays_batch` with the ambient inputs made explicit:
the corpus `all_keywords` (produced by `process_all_keywords`), the
`batch_size` argument, and `datetime.now().day` as `day_of_month`.
`total_batches = (len + batch_size - 1) // batch_size`;
`current_batch = (day_of_month - 1) % total_batches` — when
`total_batches` is `0` Python raises `ZeroDivisionError` at that modulo,
modelled here by the `Except.error` branch.  The final slice
`all_keywords[start_index:end_index]` is `drop`/`take`. -/
def get_todays_batch {α : Type} (all_keywords : List α)
    (batch_size day_of_month : Nat) : Except String (List α) :=
  let total_batches := (all_keywords.length + batch_size - 1) / batch_size
  if total_batches = 0 then
    Except.error "ZeroDivisionError: integer modulo by zero"
  else
    let current_batch := (day_of_month - 1) % total_batches
    let start_index := current_batch * batch_size
    let end_index := min (start_index + batch_size) all_keywords.length
    Except.ok ((all_keywords.drop start_index).take (end_index - start_index))

/-- The fields of a parsed RDAP JSON body that `check_rdap` inspects:
`status_list` is `some l` exactly when `'status' in data` holds and the
value is a list (of strings `l`); `has_entities` / `has_nameservers`
record the key-presence tests `'entities' in data` / `'nameservers' in
data`. -/
structure RdapData where
  status_list : Option (List (List Char))
  has_entities : Bool
  has_nameservers : Bool
deriving DecidableEq, Repr

/-- Outcome of the `requests.get` call in `check_rdap`: either a response
with a status code and a body (`none` when `response.json()` raises on a
malformed body), or a raised network error / timeout. -/
inductive HttpOutcome where
  | response (status_code : Nat) (body : Option RdapData)
  | netError
deriving DecidableEq, Repr

/-- The `has_active` test of `check_rdap`:
`any('active' in s.lower() or 'ok' in s.lower() for s in data['status'])`
when the `status` key holds a list, else false.  Note the Python `in`
operator is substring containment. -/
def rdap_has_active (data : RdapData) : Bool :=
  match data.status_list with
  | some l => l.any (fun s =>
      hasSubstring ['a', 'c', 't', 'i', 'v', 'e'] (pyLower s) ||
      hasSubstring ['o', 'k'] (pyLower s))
  | none => false

/-- `main.check_rdap` as a function of the HTTP outcome: `404` means
available; `200` with a parseable body means registered when
`rdap_has_active` holds or the body has entities or nameservers, else
inconclusive (`none`); every other status code, a malformed body, and any
raised exception are inconclusive. -/
def check_rdap (out : HttpOutcome) : Option Status :=
  match out with
  | HttpOutcome.netError => none
  | HttpOutcome.response code body =>
    if code = 404 then some Status.AVAILABLE
    else if code = 200 then
      match body with
      | none => none
      | some data =>
        if rdap_has_active data then some Status.REGISTERED
        else if data.has_entities || data.has_nameservers then some Status.REGISTERED
        else none
    else none

/-- Outcome of the `resolver.resolve(domain, 'NS')` call in `check_dns`:
an answer holding the returned nameserver records, a raised
`NXDOMAIN`/`NoAnswer`, or any other raised resolver error (timeouts
included). -/
inductive DnsOutcome where
  | answers (nameservers : List (List Char))
  | nxdomainOrNoAnswer
  | otherError
deriving DecidableEq, Repr

/-- `main.check_dns` as a function of the DNS outcome: a truthy
(non-empty) answer means registered, a falsy answer or a raised
`NXDOMAIN`/`NoAnswer` means available, anything else is inconclusive. -/
def check_dns (out : DnsOutcome) : Option Status :=
  match out with
  | DnsOutcome.answers nameservers =>
      if nameservers ≠ [] then some Status.REGISTERED else some Status.AVAILABLE
  | DnsOutcome.nxdomainOrNoAnswer => some Status.AVAILABLE
  | DnsOutcome.otherError => none

/-- The `{'domain': ..., 'status': ...}` dict returned by
`main.check_domain`. -/
structure DomainStatus where
  domain : List Char
  status : Status
deriving DecidableEq, Repr

/-- `main.check_domain` with the two network outcomes explicit: try RDAP
first; when it is inconclusive fall back to DNS; when that is also
inconclusive classify as `POSSIBLE_AVAILABLE`. -/
def check_domain (domain : List Char) (rdapOut : HttpOutcome)
    (dnsOut : DnsOutcome) : DomainStatus :=
  let status0 := check_rdap rdapOut
  let status1 := match status0 with
    | none => check_dns dnsOut
    | some s => some s
  let status2 := match status1 with
    | none => Status.POSSIBLE_AVAILABLE
    | some s => s
  { domain := domain, status := status2 }

/-- A per-domain result row as consumed by the aggregator: the dict
`{'domain', 'status'}` of `check_domain` after
`process_domains_sequential` adds the `'base'` key. -/
structure CheckResult where
  domain : List Char
  base : List Char
  status : Status
deriving DecidableEq, Repr

/-- One iteration of the loop body of `main.group_by_base` on an
association list: append `r` to the entry of `r.base` when present,
otherwise add a new `(r.base, [r])` entry at the end (Python dicts
preserve insertion order). -/
def addToGroup (grouped : List (List Char × List CheckResult))
    (r : CheckResult) : List (List Char × List CheckResult) :=
  match grouped with
  | [] => [(r.base, [r])]
  | (b, rs) :: rest =>
      if b = r.base then (b, rs ++ [r]) :: rest
      else (b, rs) :: addToGroup rest r

/-- `main.group_by_base`: fold every result into the grouped structure in
production order. -/
def group_by_base (results : List CheckResult) :
    List (List Char × List CheckResult) :=
  results.foldl addToGroup []

/-- `main.filter_interesting_groups`: keep a group exactly when some
member's status differs from `REGISTERED`. -/
def filter_interesting_groups
    (grouped : List (List Char × List CheckResult)) :
    List (List Char × List CheckResult) :=
  grouped.filter (fun p => p.2.any (fun r => r.status ≠ Status.REGISTERED))

/-- The first-seen insertion order of base names in a result sequence:
walking the results left to right, a base is appended the first time it
occurs.  Specification vocabulary for the aggregator claims. -/
def firstSeenBases (results : List CheckResult) : List (List Char) :=
  results.foldl (fun ks r => if r.base ∈ ks then ks else ks ++ [r.base]) []

/-- C1: for every domain string and every outcome of the two network
calls (any HTTP status code, malformed body, connection error, timeout,
any DNS resolver exception), `check_domain` returns a result whose status
is exactly one of `AVAILABLE`, `REGISTERED`, `POSSIBLE_AVAILABLE`; every
raised exception is modelled by an outcome constructor, so no exception
reaches the caller. -/
theorem check_domain_total_status (domain : List Char) (rdapOut : HttpOutcome)
    (dnsOut : DnsOutcome) :
    (check_domain domain rdapOut dnsOut).status = Status.AVAILABLE ∨
    (check_domain domain rdapOut dnsOut).status = Status.REGISTERED ∨
    (check_domain domain rdapOut dnsOut).status = Status.POSSIBLE_AVAILABLE := by
  cases h : (check_domain domain rdapOut dnsOut).status
  · exact Or.inl rfl
  · exact Or.inr (Or.inl rfl)
  · exact Or.inr (Or.inr rfl)

/-- C2 (counterexample): the claim says a status list whose only entry is
`"inactive"` does not by itself yield `REGISTERED`, but `check_rdap`
tests substring containment (`'active' in s.lower()`), and `"active"` is
a substring of `"inactive"`, so an HTTP 200 body with status list
`["inactive"]` and no entities or nameservers yields `REGISTERED`. -/
theorem check_rdap_inactive_gives_registered :
    check_rdap (HttpOutcome.response 200
      (some { status_list := some [['i', 'n', 'a', 'c', 't', 'i', 'v', 'e']],
              has_entities := false, has_nameservers := false }))
      = some Status.REGISTERED := by decide

/-- C2 (amended): the RDAP stage classifies as follows: HTTP 404 yields
`AVAILABLE`; HTTP 200 with a parseable body yields `REGISTERED` iff
either some status entry contains, case-insensitively, `"active"` or
`"ok"` as a substring (so `["inactive"]` does yield `REGISTERED`), or the
body has entity or nameserver records; a 200 response with neither
signal, any other HTTP status, a malformed body, or a network
error/timeout is inconclusive (`none`), falling through to DNS. -/
theorem check_rdap_classification (code : Nat) (body : Option RdapData)
    (data : RdapData) :
    check_rdap (HttpOutcome.response 404 body) = some Status.AVAILABLE ∧
    (check_rdap (HttpOutcome.response 200 (some data)) = some Status.REGISTERED ↔
      rdap_has_active data = true ∨ data.has_entities = true ∨
        data.has_nameservers = true) ∧
    (rdap_has_active data = false → data.has_entities = false →
      data.has_nameservers = false →
      check_rdap (HttpOutcome.response 200 (some data)) = none) ∧
    check_rdap (HttpOutcome.response 200 none) = none ∧
    (code ≠ 404 → code ≠ 200 → check_rdap (HttpOutcome.response code body) = none) ∧
    check_rdap HttpOutcome.netError = none := by
  refine ⟨rfl, ?_, ?_, rfl, ?_, rfl⟩
  · by_cases ha : rdap_has_active data
    · simp [check_rdap, ha]
    · by_cases he : data.has_entities
      · simp [check_rdap, ha, he]
      · by_cases hn : data.has_nameservers
        · simp [check_rdap, ha, he, hn]
        · simp [check_rdap, ha, he, hn]
  · intro ha he hn
    simp [check_rdap, ha, he, hn]
  · intro h404 h200
    simp [check_rdap, h404, h200]

/-- C2 witness: instantiates `check_rdap_classification` at HTTP 500 with
a malformed body, discharging the hypotheses. -/
theorem check_rdap_classification_witness :
    check_rdap (HttpOutcome.response 500 none) = none :=
  (check_rdap_classification 500 none
    { status_list := none, has_entities := false, has_nameservers := false
    }).2.2.2.2.1 (by decide) (by decide)

/-- C3: whenever the RDAP stage is inconclusive, the DNS fallback decides
the status: a non-empty NS answer yields `REGISTERED`, a raised
`NXDOMAIN`/`NoAnswer` yields `AVAILABLE`, any other resolver error or
timeout leaves the DNS stage inconclusive too and the final status is
`POSSIBLE_AVAILABLE`; in particular registry timeout (a raised network
error) followed by DNS `NXDOMAIN` yields `AVAILABLE`, and registry
timeout followed by DNS timeout yields `POSSIBLE_AVAILABLE`. -/
theorem dns_fallback_decides (domain : List Char) (rdapOut : HttpOutcome)
    (h : check_rdap rdapOut = none) :
    (∀ ns, ns ≠ [] →
      (check_domain domain rdapOut (DnsOutcome.answers ns)).status
        = Status.REGISTERED) ∧
    (check_domain domain rdapOut DnsOutcome.nxdomainOrNoAnswer).status
      = Status.AVAILABLE ∧
    (check_domain domain rdapOut DnsOutcome.otherError).status
      = Status.POSSIBLE_AVAILABLE ∧
    (check_domain domain HttpOutcome.netError DnsOutcome.nxdomainOrNoAnswer).status
      = Status.AVAILABLE ∧
    (check_domain domain HttpOutcome.netError DnsOutcome.otherError).status
      = Status.POSSIBLE_AVAILABLE := by
  refine ⟨?_, ?_, ?_, ?_, ?_⟩
  · intro ns hns
    simp [check_domain, h, check_dns, hns]
  · simp [check_domain, h, check_dns]
  · simp [check_domain, h, check_dns]
  · simp [check_domain, check_rdap, check_dns]
  · simp [check_domain, check_rdap, check_dns]

/-- C3 witness: instantiates `dns_fallback_decides` with an RDAP network
error (whose `check_rdap` result is `none` by computation). -/
theorem dns_fallback_decides_witness :
    (check_domain [] HttpOutcome.netError DnsOutcome.nxdomainOrNoAnswer).status
      = Status.AVAILABLE :=
  (dns_fallback_decides [] HttpOutcome.netError rfl).2.1

/-- C4: stage 1 short-circuits stage 2: a registry HTTP 404 yields
`AVAILABLE` and a registry HTTP 200 with status list `["active"]` yields
`REGISTERED`, and in both cases the whole result of `check_domain` is
independent of the DNS outcome — the DNS lookup cannot influence it. -/
theorem stage1_short_circuits (domain : List Char) (body : Option RdapData)
    (dnsOut dnsOut' : DnsOutcome) :
    (check_domain domain (HttpOutcome.response 404 body) dnsOut).status
      = Status.AVAILABLE ∧
    (check_domain domain (HttpOutcome.response 200
        (some { status_list := some [['a', 'c', 't', 'i', 'v', 'e']],
                has_entities := false, has_nameservers := false })) dnsOut).status
      = Status.REGISTERED ∧
    check_domain domain (HttpOutcome.response 404 body) dnsOut
      = check_domain domain (HttpOutcome.response 404 body) dnsOut' ∧
    check_domain domain (HttpOutcome.response 200
        (some { status_list := some [['a', 'c', 't', 'i', 'v', 'e']],
                has_entities := false, has_nameservers := false })) dnsOut
      = check_domain domain (HttpOutcome.response 200
        (some { status_list := some [['a', 'c', 't', 'i', 'v', 'e']],
                has_entities := false, has_nameservers := false })) dnsOut' := by
  refine ⟨rfl, rfl, rfl, rfl⟩

/-- C5: the claim says an empty variation corpus makes batch selection
return the empty sequence for every batch size and day, but the code has
no `total_batches == 0` guard: `(day_of_month - 1) % total_batches`
raises `ZeroDivisionError`, modelled by the `Except.error` result, for
every batch size and every day of month. -/
theorem get_todays_batch_empty_corpus_raises (batch_size day_of_month : Nat) :
    get_todays_batch ([] : List (List Char)) batch_size day_of_month
      = Except.error "ZeroDivisionError: integer modulo by zero" := by
  have h : (batch_size - 1) / batch_size = 0 := by
    rcases Nat.eq_zero_or_pos batch_size with hb | hb
    · simp [hb]
    · exact Nat.div_eq_of_lt (by omega)
  simp [get_todays_batch, h]

/-- C7: `normalize_name` is total and deterministic, its output contains
only characters in `[a-z0-9]` and has length at most 25, symbol-only (or
empty) input yields the empty string; `is_valid_name n` holds iff
`3 ≤ length n ≤ 25`; and `normalize_name "A!B" = "ab"`, which is
invalid. -/
theorem normalize_name_spec (s n : List Char) :
    (∀ c ∈ normalize_name s, isLowerAlnum c = true) ∧
    (normalize_name s).length ≤ 25 ∧
    ((∀ c ∈ s, isLowerAlnum c.toLower = false) → normalize_name s = []) ∧
    (is_valid_name n = true ↔ 3 ≤ n.length ∧ n.length ≤ 25) ∧
    normalize_name ['A', '!', 'B'] = ['a', 'b'] ∧
    is_valid_name (normalize_name ['A', '!', 'B']) = false := by
  refine ⟨?_, ?_, ?_, ?_, by decide, by decide⟩
  · intro c hc
    have hc' := List.take_subset 25 _ hc
    exact (List.mem_filter.mp hc').2
  · exact List.length_take_le 25 _
  · intro h
    have hf : (pyLower s).filter isLowerAlnum = [] := by
      rw [List.filter_eq_nil_iff]
      intro c hc
      obtain ⟨a, ha, rfl⟩ := List.mem_map.mp hc
      simp [h a ha]
    simp [normalize_name, hf]
  · simp [is_valid_name]

/-- C7 witness: instantiates `normalize_name_spec` on a symbol-only
string, discharging the hypothesis of the symbol-only conjunct. -/
theorem normalize_name_spec_witness :
    normalize_name ['%', '$', '!'] = [] :=
  (normalize_name_spec ['%', '$', '!'] []).2.2.1 (by decide)

/-- Membership in a fold that conditionally inserts `f a` for each `a` of
`l` into an accumulating finset: the element was in the initial set or is
`f a` for some `a` of `l` passing the length bound. -/
lemma mem_foldl_cond_insert (f : List Char → List Char) (l : List (List Char))
    (init : Finset (List Char)) (v : List Char) :
    (v ∈ l.foldl
        (fun acc a => if (f a).length ≤ 25 then insert (f a) acc else acc) init) ↔
      v ∈ init ∨ ∃ a ∈ l, (f a).length ≤ 25 ∧ v = f a := by
  induction l generalizing init with
  | nil => simp
  | cons x xs ih =>
      simp only [List.foldl_cons]
      by_cases hx : (f x).length ≤ 25
      · rw [if_pos hx, ih]
        simp only [Finset.mem_insert, List.mem_cons]
        constructor
        · rintro ((rfl | hv) | ⟨a, ha, hlen, rfl⟩)
          · exact Or.inr ⟨x, Or.inl rfl, hx, rfl⟩
          · exact Or.inl hv
          · exact Or.inr ⟨a, Or.inr ha, hlen, rfl⟩
        · rintro (hv | ⟨a, (rfl | ha), hlen, rfl⟩)
          · exact Or.inl (Or.inr hv)
          · exact Or.inl (Or.inl rfl)
          · exact Or.inr ⟨a, ha, hlen, rfl⟩
      · rw [if_neg hx, ih]
        simp only [List.mem_cons]
        constructor
        · rintro (hv | ⟨a, ha, hlen, rfl⟩)
          · exact Or.inl hv
          · exact Or.inr ⟨a, Or.inr ha, hlen, rfl⟩
        · rintro (hv | ⟨a, (rfl | ha), hlen, rfl⟩)
          · exact Or.inl hv
          · exact absurd hlen hx
          · exact Or.inr ⟨a, ha, hlen, rfl⟩

/-- C8: for an already-normalized base, `generate_variations` returns the
empty set when the base is invalid, and otherwise exactly the set
containing the base, each suffixed form `base ++ a` with length ≤ 25, and
each prefixed form `a ++ base` with length ≤ 25, for the four affixes; in
particular `generate_variations "acme"` is exactly the nine listed
variations and `generate_variations ""` is empty. -/
theorem generate_variations_spec (base : List Char)
    (hbase : normalize_name base = base) :
    (is_valid_name base = false → generate_variations base = ∅) ∧
    (is_valid_name base = true → ∀ v,
      v ∈ generate_variations base ↔
        v = base ∨
        (∃ a ∈ AFFIXES, (base ++ a).length ≤ 25 ∧ v = base ++ a) ∨
        (∃ a ∈ AFFIXES, (a ++ base).length ≤ 25 ∧ v = a ++ base)) ∧
    generate_variations ['a', 'c', 'm', 'e'] =
      ({['a', 'c', 'm', 'e'], ['a', 'c', 'm', 'e', 'a', 'i'],
        ['a', 'c', 'm', 'e', 'l', 'a', 'b', 's'],
        ['a', 'c', 'm', 'e', 'c', 'l', 'o', 'u', 'd'],
        ['a', 'c', 'm', 'e', 't', 'e', 'c', 'h'],
        ['a', 'i', 'a', 'c', 'm', 'e'], ['l', 'a', 'b', 's', 'a', 'c', 'm', 'e'],
        ['c', 'l', 'o', 'u', 'd', 'a', 'c', 'm', 'e'],
        ['t', 'e', 'c', 'h', 'a', 'c', 'm', 'e']} : Finset (List Char)) ∧
    generate_variations [] = ∅ := by
  refine ⟨?_, ?_, by decide, by decide⟩
  · intro hinvalid
    simp only [generate_variations, hbase, hinvalid]
    simp
  · intro hvalid v
    simp only [generate_variations, hbase, hvalid, if_true]
    rw [mem_foldl_cond_insert (fun a => a ++ base),
      mem_foldl_cond_insert (fun a => base ++ a)]
    simp only [Finset.mem_singleton]
    exact or_assoc

/-- C8 witness: the base itself is a member of the variations of
`"acme"`, obtained by instantiating `generate_variations_spec` there. -/
theorem generate_variations_spec_witness :
    ['a', 'c', 'm', 'e'] ∈ generate_variations ['a', 'c', 'm', 'e'] :=
  ((generate_variations_spec ['a', 'c', 'm', 'e'] (by decide)).2.1 (by decide)
    ['a', 'c', 'm', 'e']).mpr (Or.inl rfl)

/-- C6: for every non-empty corpus of length `N`, batch size `b ≥ 1`, and
day of month `d` in 1–31, the selected batch is exactly the slice
`[s, min (s + b) N)` of the corpus with
`s = ((d - 1) % ((N + b - 1) / b)) * b` (note `(N + b - 1) / b` is
`ceil (N / b)`); two days whose `(d - 1)` values are congruent modulo the
batch count select the same slice; and with `N = 1000`, `b = 200`, days
1, 6, and 31 all select indices 0–199. -/
theorem get_todays_batch_slice {α : Type} (xs : List α) (b d : Nat)
    (hxs : xs ≠ []) (hb : 1 ≤ b) (hd1 : 1 ≤ d) (hd31 : d ≤ 31) :
    get_todays_batch xs b d =
      Except.ok ((xs.drop (((d - 1) % ((xs.length + b - 1) / b)) * b)).take
        (min ((((d - 1) % ((xs.length + b - 1) / b)) * b) + b) xs.length -
          ((d - 1) % ((xs.length + b - 1) / b)) * b)) ∧
    (∀ d', 1 ≤ d' → d' ≤ 31 →
      (d - 1) % ((xs.length + b - 1) / b) = (d' - 1) % ((xs.length + b - 1) / b) →
      get_todays_batch xs b d = get_todays_batch xs b d') ∧
    (xs.length = 1000 →
      get_todays_batch xs 200 1 = Except.ok (xs.take 200) ∧
      get_todays_batch xs 200 6 = Except.ok (xs.take 200) ∧
      get_todays_batch xs 200 31 = Except.ok (xs.take 200)) := by
  have hN : 0 < xs.length := List.length_pos.mpr hxs
  have htb : 0 < (xs.length + b - 1) / b := Nat.div_pos (by omega) (by omega)
  refine ⟨?_, ?_, ?_⟩
  · simp only [get_todays_batch]
    rw [if_neg htb.ne']
  · intro d' _ _ hcong
    simp only [get_todays_batch]
    rw [hcong]
  · intro hlen
    have h5 : (xs.length + 200 - 1) / 200 = 5 := by rw [hlen]
    refine ⟨?_, ?_, ?_⟩ <;>
      · simp only [get_todays_batch, h5, hlen]
        norm_num

/-- C6 witness: instantiates `get_todays_batch_slice` on a concrete
three-element corpus with batch size 2 on day 1, where the slice formula
gives indices 0–1. -/
theorem get_todays_batch_slice_witness :
    get_todays_batch [0, 1, 2] 2 1 = Except.ok [0, 1] :=
  ((get_todays_batch_slice [0, 1, 2] 2 1 (by decide) (by decide) (by decide)
    (by decide)).1).trans rfl

/-- C10: for every non-empty corpus, batch size `b ≥ 1`, and day of month
1–31, batch selection succeeds and the selected batch is non-empty with
length between 1 and `b` (the start index
`((d - 1) % ceil(N / b)) * b` is always below `N`); hence the
empty-batch guard in `main` is unreachable when the corpus is
non-empty. -/
theorem get_todays_batch_nonempty {α : Type} (xs : List α) (b d : Nat)
    (hxs : xs ≠ []) (hb : 1 ≤ b) (hd1 : 1 ≤ d) (hd31 : d ≤ 31) :
    ∃ batch, get_todays_batch xs b d = Except.ok batch ∧
      batch ≠ [] ∧ 1 ≤ batch.length ∧ batch.length ≤ b := by
  have hN : 0 < xs.length := List.length_pos.mpr hxs
  have htb : 0 < (xs.length + b - 1) / b := Nat.div_pos (by omega) (by omega)
  have hcb : (d - 1) % ((xs.length + b - 1) / b) < (xs.length + b - 1) / b :=
    Nat.mod_lt _ htb
  have hmul : ((xs.length + b - 1) / b) * b ≤ xs.length + b - 1 :=
    Nat.div_mul_le_self _ _
  have hstart : ((d - 1) % ((xs.length + b - 1) / b)) * b ≤
      ((xs.length + b - 1) / b) * b - b := by
    have h1 : (d - 1) % ((xs.length + b - 1) / b) ≤ (xs.length + b - 1) / b - 1 := by
      omega
    have h2 : ((d - 1) % ((xs.length + b - 1) / b)) * b ≤
        ((xs.length + b - 1) / b - 1) * b := Nat.mul_le_mul_right b h1
    have h3 : ((xs.length + b - 1) / b - 1) * b = ((xs.length + b - 1) / b) * b - b := by
      rw [Nat.sub_one_mul]
    omega
  have hstartlt : ((d - 1) % ((xs.length + b - 1) / b)) * b < xs.length := by omega
  refine ⟨(xs.drop (((d - 1) % ((xs.length + b - 1) / b)) * b)).take
      (min ((((d - 1) % ((xs.length + b - 1) / b)) * b) + b) xs.length -
        ((d - 1) % ((xs.length + b - 1) / b)) * b), ?_, ?_, ?_, ?_⟩
  · simp only [get_todays_batch]
    rw [if_neg htb.ne']
  · apply List.ne_nil_of_length_pos
    rw [List.length_take, List.length_drop]
    omega
  · rw [List.length_take, List.length_drop]
    omega
  · rw [List.length_take, List.length_drop]
    omega

/-- C10 witness: instantiates `get_todays_batch_nonempty` on a concrete
three-element corpus with batch size 2 on day 2 (the short final
batch). -/
theorem get_todays_batch_nonempty_witness :
    ∃ batch, get_todays_batch [0, 1, 2] 2 2 = Except.ok batch ∧
      batch ≠ [] ∧ 1 ≤ batch.length ∧ batch.length ≤ 2 :=
  get_todays_batch_nonempty [0, 1, 2] 2 2 (by decide) (by decide) (by decide)
    (by decide)

/-- One `addToGroup` step on a grouped structure in canonical shape (keys
paired with the production-order filter of the processed prefix) keeps it
canonical: the result's keys gain `r.base` at the end exactly when it is
new, and the processed prefix grows by `r`. -/
lemma addToGroup_canonical (keys : List (List Char)) (processed : List CheckResult)
    (r : CheckResult) (hnd : keys.Nodup)
    (hmem : r.base ∉ keys → ∀ x ∈ processed, x.base ≠ r.base) :
    addToGroup
        (keys.map (fun b => (b, processed.filter (fun x => decide (x.base = b))))) r =
      (if r.base ∈ keys then keys else keys ++ [r.base]).map
        (fun b => (b, (processed ++ [r]).filter (fun x => decide (x.base = b)))) := by
  induction keys with
  | nil =>
      have hf : processed.filter (fun x => decide (x.base = r.base)) = [] := by
        rw [List.filter_eq_nil_iff]
        intro x hx
        simp only [decide_eq_true_eq]
        exact hmem (List.not_mem_nil _) x hx
      simp [addToGroup, List.filter_append, hf]
  | cons k ks ih =>
      simp only [List.map_cons]
      by_cases hk : k = r.base
      · subst hk
        have hnotin : r.base ∉ ks := (List.nodup_cons.mp hnd).1
        rw [if_pos (List.mem_cons_self _ _), List.map_cons]
        simp only [addToGroup, if_true]
        congr 1
        · rw [List.filter_append]
          simp
        · apply List.map_congr_left
          intro b hb
          have hne : ¬(r.base = b) := fun h => hnotin (by rw [h]; exact hb)
          rw [List.filter_append]
          simp [hne]
      · have hndks : ks.Nodup := (List.nodup_cons.mp hnd).2
        have hrk : ¬(r.base = k) := fun h => hk h.symm
        simp only [addToGroup, if_neg hk]
        have hmem' : r.base ∉ ks → ∀ x ∈ processed, x.base ≠ r.base := by
          intro h
          have hnotmem : r.base ∉ k :: ks := by
            simp only [List.mem_cons, not_or]
            exact ⟨hrk, h⟩
          exact hmem hnotmem
        rw [ih hndks hmem']
        by_cases hrks : r.base ∈ ks
        · rw [if_pos hrks, if_pos (List.mem_cons_of_mem _ hrks), List.map_cons]
          congr 1
          rw [List.filter_append]
          simp [hrk]
        · have hnotmem : r.base ∉ k :: ks := by
            simp only [List.mem_cons, not_or]
            exact ⟨hrk, hrks⟩
          rw [if_neg hrks, if_neg hnotmem, List.cons_append, List.map_cons]
          congr 1
          rw [List.filter_append]
          simp [hrk]

/-- Folding `addToGroup` over the remaining results, starting from a
canonical grouped structure, yields the canonical grouped structure of
the whole sequence: first-seen key order with production-order value
lists. -/
lemma group_by_base_canonical (rest : List CheckResult) (keys : List (List Char))
    (processed : List CheckResult) (hnd : keys.Nodup)
    (hp : ∀ x ∈ processed, x.base ∈ keys) :
    rest.foldl addToGroup
        (keys.map (fun b => (b, processed.filter (fun x => decide (x.base = b))))) =
      (rest.foldl (fun ks r => if r.base ∈ ks then ks else ks ++ [r.base]) keys).map
        (fun b => (b, (processed ++ rest).filter (fun x => decide (x.base = b)))) := by
  induction rest generalizing keys processed with
  | nil => simp
  | cons r rest ih =>
      simp only [List.foldl_cons]
      rw [addToGroup_canonical keys processed r hnd
        (fun h x hx hb => h (hb ▸ hp x hx))]
      by_cases hr : r.base ∈ keys
      · rw [if_pos hr]
        have hp' : ∀ x ∈ processed ++ [r], x.base ∈ keys := by
          intro x hx
          rcases List.mem_append.mp hx with h | h
          · exact hp x h
          · rw [List.mem_singleton] at h
            subst h
            exact hr
        rw [ih keys (processed ++ [r]) hnd hp']
        simp [List.append_assoc]
      · rw [if_neg hr]
        have hnd' : (keys ++ [r.base]).Nodup := by
          apply List.Nodup.append hnd (List.nodup_singleton _)
          intro a ha hb
          rw [List.mem_singleton] at hb
          subst hb
          exact hr ha
        have hp' : ∀ x ∈ processed ++ [r], x.base ∈ keys ++ [r.base] := by
          intro x hx
          rcases List.mem_append.mp hx with h | h
          · exact List.mem_append.mpr (Or.inl (hp x h))
          · rw [List.mem_singleton] at h
            subst h
            exact List.mem_append.mpr (Or.inr (by simp))
        rw [ih (keys ++ [r.base]) (processed ++ [r]) hnd' hp']
        simp [List.append_assoc]

/-- C9: `group_by_base` groups results by base preserving the first-seen
order of bases and, within each base, production order (each group's list
is the order-preserving filter of the full sequence); a group survives
`filter_interesting_groups` iff some member's status is not `REGISTERED`;
concretely, a base with statuses `[REGISTERED, REGISTERED, AVAILABLE,
REGISTERED]` is retained while an all-`REGISTERED` base is dropped. -/
theorem group_and_filter_spec (results : List CheckResult) :
    group_by_base results =
      (firstSeenBases results).map
        (fun b => (b, results.filter (fun x => decide (x.base = b)))) ∧
    (∀ (grouped : List (List Char × List CheckResult)) (b : List Char)
        (rs : List CheckResult),
      (b, rs) ∈ filter_interesting_groups grouped ↔
        (b, rs) ∈ grouped ∧ ∃ r ∈ rs, r.status ≠ Status.REGISTERED) ∧
    filter_interesting_groups (group_by_base
      [⟨['x', '1'], ['x'], Status.REGISTERED⟩,
       ⟨['x', '2'], ['x'], Status.REGISTERED⟩,
       ⟨['x', '3'], ['x'], Status.AVAILABLE⟩,
       ⟨['x', '4'], ['x'], Status.REGISTERED⟩,
       ⟨['y', '1'], ['y'], Status.REGISTERED⟩,
       ⟨['y', '2'], ['y'], Status.REGISTERED⟩,
       ⟨['y', '3'], ['y'], Status.REGISTERED⟩,
       ⟨['y', '4'], ['y'], Status.REGISTERED⟩]) =
      [(['x'],
        [⟨['x', '1'], ['x'], Status.REGISTERED⟩,
         ⟨['x', '2'], ['x'], Status.REGISTERED⟩,
         ⟨['x', '3'], ['x'], Status.AVAILABLE⟩,
         ⟨['x', '4'], ['x'], Status.REGISTERED⟩])] := by
  refine ⟨?_, ?_, by decide⟩
  · have h := group_by_base_canonical results [] [] List.nodup_nil (by simp)
    simpa [group_by_base, firstSeenBases] using h
  · intro grouped b rs
    simp [filter_interesting_groups, List.mem_filter, List.any_eq_true]
